import Mathlib

/-
Verification of the PDF-to-TSV batch-extraction scripts
`ex-claude.py` and `ex-gemini.py`.

Text is modelled as `List Char` (Python `str` restricted to the characters
the scripts manipulate; `\s` of Python's `re` module is modelled by the six
ASCII whitespace characters, `\d` by the ASCII digits, and `str.lower` /
`IGNORECASE` by ASCII lowercasing, which is `Char.toLower`).

Fallible Python code (code that may raise) is modelled with `Except`:
an `Except.error` value is a raised exception.  The external collaborators
(PyMuPDF page extraction, the model providers' network calls) are passed in
as explicit oracles describing their outcomes, exactly at the boundary the
scripts call them.
-/

abbrev Str := List Char

/-- Python `\s` (ASCII fragment): space, tab, newline, carriage return,
vertical tab, form feed. -/
def isWS (c : Char) : Bool :=
  c == ' ' || c == '\t' || c == '\n' || c == '\r' || c == '\x0b' || c == '\x0c'

/-- Literal match: `litAt pat l` holds iff the literal `pat` matches the beginning of `l`
(case-sensitively).  Models `str.startswith` and literal regex atoms. -/
def litAt : List Char → List Char → Bool
  | [], _ => true
  | _ :: _, [] => false
  | p :: ps, c :: cs => (c == p) && litAt ps cs

/-- Case-insensitive match: `matchesAt pat l` holds iff the (lowercase) literal `pat` matches the beginning of
`l` case-insensitively.  Models `re` literal matching under `IGNORECASE`. -/
def matchesAt : List Char → List Char → Bool
  | [], _ => true
  | _ :: _, [] => false
  | p :: ps, c :: cs => (c.toLower == p) && matchesAt ps cs

/-- Consume one-or-more whitespace characters (`\s+`, greedy); returns the
remaining text, or `none` if the text does not start with whitespace. -/
def chompWS : Str → Option Str
  | [] => none
  | c :: cs => if isWS c then some (cs.dropWhile isWS) else none

/-- Consume one-or-more ASCII digits (`\d+`, greedy); returns the remaining
text, or `none` if the text does not start with a digit. -/
def chompDigits : Str → Option Str
  | [] => none
  | c :: cs => if c.isDigit then some (cs.dropWhile Char.isDigit) else none

/-- Consume a case-sensitive literal; returns the remaining text. -/
def chompLit (pat : List Char) (l : Str) : Option Str :=
  if litAt pat l then some (l.drop pat.length) else none

/-- A match of the regex `Page\s+\d+\s+of\s+\d+` anchored at the head of `l`:
returns the text remaining after the (greedy) match, or `none`.
In this pattern each greedy `\s+`/`\d+` necessarily consumes its maximal run,
since the following atom can never match a character of the same class. -/
def pageTail (l : Str) : Option Str := do
  let r1 ← chompLit "Page".toList l
  let r2 ← chompWS r1
  let r3 ← chompDigits r2
  let r4 ← chompWS r3
  let r5 ← chompLit "of".toList r4
  let r6 ← chompWS r5
  chompDigits r6

/-- Fueled left-to-right scan of `re.sub(r'Page\s+\d+\s+of\s+\d+', '', text)`:
each leftmost match is deleted and scanning resumes after the match.
The fuel only bounds the recursion; every step consumes at least one
character, so fuel `l.length` (see `removePageNums`) never runs out. -/
def subPage : Nat → Str → Str
  | 0, l => l
  | _ + 1, [] => []
  | fuel + 1, c :: cs =>
    match pageTail (c :: cs) with
    | some rest => subPage fuel rest
    | none => c :: subPage fuel cs

/-- Rule 1 of `preprocess_text`: `re.sub(r'Page\s+\d+\s+of\s+\d+', '', text)`. -/
def removePageNums (l : Str) : Str := subPage l.length l

/-- The text remaining after a greedy match of `\s*.*\n` anchored at the head
of `r` (the part of the header/footer pattern after the colon), or `none`
if there is no match.  `.` does not match a newline; `\s*` may.  Greedy
backtracking semantics: `\s*` first takes the maximal whitespace run; the
match then ends at the first newline after that run, and if no such newline
exists the engine backs `\s*` off to just before the last newline inside the
run (no match at all if the text after the colon contains no newline). -/
def hfTail (r : Str) : Option Str :=
  let w := r.takeWhile isWS
  let rest := r.dropWhile isWS
  match rest.findIdx? (fun c => c == '\n') with
  | some i => some (rest.drop (i + 1))
  | none =>
    if w.contains '\n' then
      some ((w.reverse.takeWhile (fun c => !(c == '\n'))).reverse ++ rest)
    else none

/-- Fueled scan of
`re.sub(r'(Header|Footer):\s*.*\n', '', text, flags=re.IGNORECASE)`. -/
def subHF : Nat → Str → Str
  | 0, l => l
  | _ + 1, [] => []
  | fuel + 1, c :: cs =>
    if matchesAt "header:".toList (c :: cs) || matchesAt "footer:".toList (c :: cs) then
      match hfTail ((c :: cs).drop 7) with
      | some rest => subHF fuel rest
      | none => c :: subHF fuel cs
    else c :: subHF fuel cs

/-- Rule 2 of `preprocess_text`: delete `Header:`/`Footer:` lines. -/
def removeHeaderFooterLines (l : Str) : Str := subHF l.length l

/-- Fueled scan of `re.sub(r'\s*\n\s*', ' ', text)`.  A greedy match of
`\s*\n\s*` at the start of a whitespace run swallows the whole maximal run
(provided the run contains a newline), so each maximal whitespace run
containing a newline becomes a single space and all other text is kept. -/
def subNL : Nat → Str → Str
  | 0, l => l
  | _ + 1, [] => []
  | fuel + 1, c :: cs =>
    if isWS c then
      let run := c :: cs.takeWhile isWS
      let rest := cs.dropWhile isWS
      (if run.contains '\n' then [' '] else run) ++ subNL fuel rest
    else c :: subNL fuel cs

/-- Rule 3 of `preprocess_text`: collapse newline-spanning whitespace runs. -/
def collapseNewlineRuns (l : Str) : Str := subNL l.length l

/-- The word searched for by `re.search(r"References", text, flags=re.IGNORECASE)`. -/
def refLit : Str := "references".toList

/-- Model of `re.search(r"References", text, flags=re.IGNORECASE)`: index of the first
case-insensitive occurrence of the literal `References`. -/
def findRef : Str → Option Nat
  | [] => none
  | c :: cs => if matchesAt refLit (c :: cs) then some 0 else (findRef cs).map (· + 1)

/-- Whether `l` contains a case-insensitive occurrence of `References`. -/
def hasRef (l : Str) : Bool := (findRef l).isSome

/-- Rule 4 of `preprocess_text`: `text = text[:match.start()]` when the search
succeeds, the text unchanged otherwise. -/
def truncateRef (l : Str) : Str :=
  match findRef l with
  | some p => l.take p
  | none => l

/-- Structural core of `re.sub(r'\s+', ' ', text)`: the flag records whether
the previous character belonged to a whitespace run already replaced. -/
def collapseGo : Str → Bool → Str
  | [], _ => []
  | c :: cs, prev =>
    if isWS c then
      if prev then collapseGo cs true else ' ' :: collapseGo cs true
    else c :: collapseGo cs false

/-- Rule 5 of `preprocess_text`, first half: `re.sub(r'\s+', ' ', text)` — every maximal whitespace run becomes one space. -/
def collapseWS (l : Str) : Str := collapseGo l false

/-- Remove trailing whitespace (the right half of Python `str.strip()`). -/
def rstripWS : Str → Str
  | [] => []
  | c :: cs =>
    match rstripWS cs with
    | [] => if isWS c then [] else [c]
    | r => c :: r

/-- Python `str.strip()`: remove leading and trailing whitespace. -/
def stripWS (l : Str) : Str := rstripWS (l.dropWhile isWS)

/-- Model of `preprocess_text` of both scripts (the two copies are identical):
```
text = re.sub(r'Page\s+\d+\s+of\s+\d+', '', text)
text = re.sub(r'(Header|Footer):\s*.*\n', '', text, flags=re.IGNORECASE)
text = re.sub(r'\s*\n\s*', ' ', text)
match = re.search(r"References", text, flags=re.IGNORECASE)
if match: text = text[:match.start()]
return re.sub(r'\s+', ' ', text).strip()
``` -/
def preprocess_text (text : Str) : Str :=
  let t1 := removePageNums text
  let t2 := removeHeaderFooterLines t1
  let t3 := collapseNewlineRuns t2
  let t4 := truncateRef t3
  stripWS (collapseWS t4)

/-- The text produced by rules 1–3 of `preprocess_text`, i.e. the text the
`References` search actually runs on. -/
def midText (text : Str) : Str :=
  collapseNewlineRuns (removeHeaderFooterLines (removePageNums text))

/-- The fixed prompt template shared verbatim by both scripts, up to the point
where `clean_text` is interpolated.  The f-string starts with a newline
(after the opening triple quote). -/
def promptPre : Str := ("\nYou are an expert in extracting data from scientific literature. Your task is to extract all the \"Ligand name\", \"Receptor protein name\", \"Receptor protein organism source\", \"Affinity value\", \"Wet lab method for affinity measurement\" and \"corresponding complex PDBID\" from the converted scientific literature text.\n\nSpecial attention:\n- Please note that the data is extracted directly from the literature; please do not infer or tamper with the data.\n\nOutput requirements:\n- The output must be in TSV format, and each line can only be one wet test measurement of affinity.\n- There are exactly 6 columns in this order.\n\n- Columns:\n1. Ligand name (extract peptide ligand name from converted scientific literature text.)\n2. Receptor protein name (extract the protein name from the converted text format.)\n3. Receptor protein organism source (such as \"Homo sapiens\"; \"Mus musculus\"; \"Rattus norvegicus\"; \"Hepatitis C virus\", etc.)\n4. Affinity value (for example: \"Kd=1.2 nM\"; \"Ki=2.3 pM\"; \"IC50=11 uM\"; \"Ki=1.13 uM\"; must follow the example format.)\n5. Wet lab method for affinity measurement (for example: \"isothermal titration calorimetry\"; \"surface plasmon resonance\"; \"fluorescence polarization\"; \"biomembrane interference method\"; \"ELISA\"; \"enzyme activity assay\"; etc.)\n6. Corresponding complex PDBID\nCleaned text for extraction:\n").toList

/-- Model of `build_prompt` of both scripts: the f-string interpolates `clean_text`
before the final newline, and the whole template is `.strip()`-ped. -/
def build_prompt (clean_text : Str) : Str :=
  stripWS (promptPre ++ clean_text ++ ['\n'])

/-- The `headers` list of `main` (identical in both scripts). -/
def headers : List String :=
  ["Ligand name",
   "Receptor protein name",
   "Receptor protein organism source",
   "Affinity value",
   "Wet lab method for affinity measurement",
   "Corresponding complex PDBID"]

/-- Model of `"\t".join(headers)`: the fixed 6-column header row. -/
def headerRow : Str := List.intercalate "\t".toList (headers.map String.toList)

/-- The full content written for one successful job:
`fout.write("\t".join(headers) + "\n"); fout.write(tsv + "\n")`. -/
def artifactContent (tsv : Str) : Str := headerRow ++ '\n' :: (tsv ++ ['\n'])

/-- Model of `os.path.splitext(fname)[0]` for a basename: split at the last dot,
except that a basename whose characters before the last dot are all dots
(e.g. `".pdf"`) has no extension. -/
def stemOf (f : Str) : Str :=
  match f.reverse.findIdx? (fun c => c == '.') with
  | none => f
  | some k =>
    let i := f.length - 1 - k
    if (f.take i).any (fun c => !(c == '.')) then f.take i else f

/-- The derived artifact filename `f"{stem}.tsv"` for an input basename. -/
def outNameOf (f : Str) : Str := stemOf f ++ ".tsv".toList

/-- Discovery in `main`: keep the directory entries `f` with
`f.lower().endswith(".pdf")`. -/
def discoverPdfs (names : List Str) : List Str :=
  names.filter (fun f => litAt ".pdf".toList.reverse ((f.map Char.toLower).reverse))

/-- Run a list of fallible steps in order, stopping at the first raised
exception — the semantics of a Python `for` loop that may raise partway. -/
def sequenceE : List (Except Str Str) → Except Str (List Str)
  | [] => Except.ok []
  | x :: xs =>
    match x with
    | Except.error e => Except.error e
    | Except.ok a =>
      match sequenceE xs with
      | Except.error e => Except.error e
      | Except.ok as => Except.ok (a :: as)

/-- The page-reading loop of `extract_from_pdf` (identical in both scripts):
```
doc = fitz.open(pdf_path)
raw_text = []
for page in doc:
    raw_text.append(page.get_text(...))
doc.close()
```
`pages` gives the outcome of each page's `get_text` call in page order.
The second component records whether `doc.close()` was executed on this
path: there is no `try/finally` or context manager, so an exception raised
by `get_text` partway through the loop propagates before `doc.close()` is
reached. -/
def readPages (pages : List (Except Str Str)) : Except Str (List Str) × Bool :=
  match sequenceE pages with
  | Except.ok ts => (Except.ok ts, true)
  | Except.error e => (Except.error e, false)

deriving instance DecidableEq for Except

/-- One batch job as seen by the collector loop in `main`: the input file's
basename and the outcome of `future.result()` — the value returned by
`extract_from_pdf`, or the exception it raised. -/
structure Job where
  fname : Str
  result : Except Str Str
deriving DecidableEq

/-- One line printed by the collector loop of `main`: a success line
`[✓] fname → stem.tsv`, a failure line `[✗] fname ERROR: ...`, or the single
end-of-run summary line. -/
inductive LogLine where
  | success : Str → Str → LogLine
  | failure : Str → Str → LogLine
  | summary : LogLine
deriving DecidableEq

/-- Whether a log line reports the outcome of one job (as opposed to the
end-of-run summary). -/
def isOutcomeLine : LogLine → Bool
  | LogLine.success _ _ => true
  | LogLine.failure _ _ => true
  | LogLine.summary => false

namespace ExClaude

/-- Model of `call_openai_api` of `ex-claude.py`.  `response` is the outcome of the
provider call `client.messages.create(...)` (an `Except.error` is a raised
transport/authentication/provider exception).  The function body contains no
`try`/`except`, so a raised exception passes straight through to the caller;
on success the response text is `.strip()`-ped and returned. -/
def call_openai_api (response : Except Str Str) : Except Str Str :=
  match response with
  | Except.error e => Except.error e
  | Except.ok t => Except.ok (stripWS t)

/-- Model of `extract_from_pdf` of `ex-claude.py`: read the pages, join with single
spaces, clean, build the prompt, call the provider.  `api` maps the prompt
to the provider-call outcome. -/
def extract_from_pdf (pages : List (Except Str Str)) (api : Str → Except Str Str) :
    Except Str Str :=
  match (readPages pages).1 with
  | Except.error e => Except.error e
  | Except.ok raw =>
      call_openai_api (api (build_prompt (preprocess_text (List.intercalate [' '] raw))))

/-- One iteration of the collector loop of `main` in `ex-claude.py`:
`try: tsv = future.result(); open(...); write header; write tsv; print ✓`
`except: print ✗`.  Returns the artifact written (path stem + content), if
any, and the log line printed. -/
def processJob (j : Job) : Option (Str × Str) × LogLine :=
  match j.result with
  | Except.ok tsv =>
      (some (outNameOf j.fname, artifactContent tsv),
       LogLine.success j.fname (outNameOf j.fname))
  | Except.error e => (none, LogLine.failure j.fname e)

/-- The collector of `main` in `ex-claude.py`, with `jobs` listed in
completion order (the `as_completed` order; the claims proved below are
order-independent).  Returns the artifacts written and the printed log,
the final summary line last. -/
def runBatch (jobs : List Job) : List (Str × Str) × List LogLine :=
  (jobs.filterMap (fun j => (processJob j).1),
   jobs.map (fun j => (processJob j).2) ++ [LogLine.summary])

/-- A whole batch run of `ex-claude.py`: discover the `.pdf` entries of the
input directory, run `extract_from_pdf` for each (with that file's page and
provider oracles), and collect. -/
def batch (names : List Str) (pagesOf : Str → List (Except Str Str))
    (apiOf : Str → Str → Except Str Str) : List (Str × Str) × List LogLine :=
  runBatch ((discoverPdfs names).map
    (fun f => Job.mk f (extract_from_pdf (pagesOf f) (apiOf f))))

end ExClaude

namespace ExGemini

/-- The in-band error marker of `ex-gemini.py`. -/
def geminiErrTag : Str := "ERROR_CALLING_GEMINI_API".toList

/-- Model of `call_gemini_api` of `ex-gemini.py`: the whole body is wrapped in
`try`/`except Exception`, so the function always returns a string — the
stripped response text on success, or
`f"ERROR_CALLING_GEMINI_API: {str(e)}"` when the provider call raised. -/
def call_gemini_api (response : Except Str Str) : Str :=
  match response with
  | Except.ok t => stripWS t
  | Except.error e => geminiErrTag ++ ": ".toList ++ e

/-- Model of `extract_from_pdf` of `ex-gemini.py`: identical to the Claude variant
except that the provider call never raises (errors come back in-band). -/
def extract_from_pdf (pages : List (Except Str Str)) (api : Str → Except Str Str) :
    Except Str Str :=
  match (readPages pages).1 with
  | Except.error e => Except.error e
  | Except.ok raw =>
      Except.ok (call_gemini_api (api (build_prompt (preprocess_text (List.intercalate [' '] raw)))))

/-- One iteration of the collector loop of `main` in `ex-gemini.py`: as in
the Claude variant, except that a result starting with
`ERROR_CALLING_GEMINI_API` is logged as a failure and written nowhere
(`continue` before the file is opened). -/
def processJob (j : Job) : Option (Str × Str) × LogLine :=
  match j.result with
  | Except.ok tsv =>
      if litAt geminiErrTag tsv then (none, LogLine.failure j.fname tsv)
      else
        (some (outNameOf j.fname, artifactContent tsv),
         LogLine.success j.fname (outNameOf j.fname))
  | Except.error e => (none, LogLine.failure j.fname e)

/-- The collector of `main` in `ex-gemini.py` (jobs in completion order). -/
def runBatch (jobs : List Job) : List (Str × Str) × List LogLine :=
  (jobs.filterMap (fun j => (processJob j).1),
   jobs.map (fun j => (processJob j).2) ++ [LogLine.summary])

/-- A whole batch run of `ex-gemini.py`. -/
def batch (names : List Str) (pagesOf : Str → List (Except Str Str))
    (apiOf : Str → Str → Except Str Str) : List (Str × Str) × List LogLine :=
  runBatch ((discoverPdfs names).map
    (fun f => Job.mk f (extract_from_pdf (pagesOf f) (apiOf f))))

end ExGemini

/-! ### Helper predicates and lemmas about the cleaning pipeline -/

/-- The list does not start with a whitespace character. -/
def notWSHead : Str → Bool
  | [] => true
  | c :: _ => !isWS c

/-- No two adjacent characters are both whitespace. -/
def noTwoWS : Str → Bool
  | [] => true
  | [_] => true
  | a :: b :: r => (!(isWS a && isWS b)) && noTwoWS (b :: r)

/-- Every whitespace character of the list is a plain space. -/
def wsOnlySpace (l : Str) : Bool := l.all (fun c => !isWS c || c == ' ')

theorem noTwoWS_tail {c : Char} {t : Str} (h : noTwoWS (c :: t) = true) :
    noTwoWS t = true := by
  cases t with
  | nil => rfl
  | cons d ds =>
    simp only [noTwoWS, Bool.and_eq_true] at h
    exact h.2

theorem noTwoWS_append_right : ∀ {a b : Str}, noTwoWS (a ++ b) = true → noTwoWS b = true := by
  intro a
  induction a with
  | nil => intro b h; simpa using h
  | cons x xs ih => intro b h; exact ih (noTwoWS_tail h)

theorem matchesAt_append {pat a : Str} (t : Str) (h : matchesAt pat a = true) :
    matchesAt pat (a ++ t) = true := by
  induction pat generalizing a with
  | nil => simp [matchesAt]
  | cons p ps ih =>
    cases a with
    | nil => simp [matchesAt] at h
    | cons c cs =>
      simp only [List.cons_append, matchesAt, Bool.and_eq_true] at h ⊢
      exact ⟨h.1, ih h.2⟩

theorem matchesAt_of_take {pat l : Str} {n : Nat} (h : matchesAt pat (l.take n) = true) :
    matchesAt pat l = true := by
  have := matchesAt_append (l.drop n) h
  rwa [List.take_append_drop] at this

theorem hasRef_cons (c : Char) (cs : Str) :
    hasRef (c :: cs) = (matchesAt refLit (c :: cs) || hasRef cs) := by
  rw [hasRef, findRef]
  by_cases h : matchesAt refLit (c :: cs) = true
  · simp [h]
  · rw [if_neg h, Bool.not_eq_true] at *
    rw [h, Bool.false_or, hasRef]
    cases findRef cs <;> rfl

theorem hasRef_append_right {b : Str} (a : Str) (h : hasRef b = true) :
    hasRef (a ++ b) = true := by
  induction a with
  | nil => simpa using h
  | cons x xs ih => rw [List.cons_append, hasRef_cons, ih, Bool.or_true]

theorem hasRef_append_left {a : Str} (t : Str) (h : hasRef a = true) :
    hasRef (a ++ t) = true := by
  induction a with
  | nil => simp [hasRef, findRef] at h
  | cons x xs ih =>
    rw [hasRef_cons] at h
    rw [List.cons_append, hasRef_cons]
    rcases Bool.or_eq_true_iff.mp h with h1 | h2
    · have h2 := matchesAt_append t h1
      rw [List.cons_append] at h2
      rw [h2, Bool.true_or]
    · rw [ih h2, Bool.or_true]

theorem hasRef_take_of_findRef : ∀ {l : Str} {p : Nat}, findRef l = some p →
    hasRef (l.take p) = false := by
  intro l
  induction l with
  | nil => intro p h; simp [findRef] at h
  | cons c cs ih =>
    intro p h
    rw [findRef] at h
    by_cases hm : matchesAt refLit (c :: cs) = true
    · rw [if_pos hm] at h
      injection h with h
      subst h
      rfl
    · rw [if_neg hm] at h
      cases hq : findRef cs with
      | none => rw [hq] at h; simp at h
      | some q =>
        rw [hq] at h
        simp only [Option.map_some'] at h
        injection h with h
        subst h
        rw [List.take_succ_cons, hasRef_cons, ih hq]
        have h2 : matchesAt refLit (c :: cs.take q) = false := by
          cases hb : matchesAt refLit (c :: cs.take q)
          · rfl
          · exact absurd (matchesAt_of_take (n := q + 1)
              (by rw [List.take_succ_cons]; exact hb)) hm
        rw [h2]
        rfl

theorem collapseGo_true_eq_false {l : Str} (h : notWSHead l = true) :
    collapseGo l true = collapseGo l false := by
  cases l with
  | nil => rfl
  | cons c cs =>
    have hw : isWS c = false := by
      simpa [notWSHead] using h
    simp [collapseGo, hw]

theorem collapse_headTwo : ∀ l : Str,
    notWSHead (collapseGo l true) = true ∧ ∀ b, noTwoWS (collapseGo l b) = true := by
  intro l
  induction l with
  | nil => exact ⟨rfl, fun b => rfl⟩
  | cons c cs ih =>
    by_cases hw : isWS c = true
    · refine ⟨by simp only [collapseGo, hw, if_true]; exact ih.1, ?_⟩
      intro b
      cases b with
      | true =>
        simp only [collapseGo, hw, if_true]
        exact ih.2 true
      | false =>
        simp only [collapseGo, hw, if_true, Bool.false_eq_true, if_false]
        have h1 := ih.1
        have h2 := ih.2 true
        cases hg : collapseGo cs true with
        | nil => rfl
        | cons d ds =>
          rw [hg] at h1 h2
          have hd : isWS d = false := by simpa [notWSHead] using h1
          simp only [noTwoWS, Bool.and_eq_true]
          exact ⟨by simp [hd], h2⟩
    · have hw' : isWS c = false := by simpa using hw
      refine ⟨by simp [collapseGo, hw', notWSHead], ?_⟩
      intro b
      simp only [collapseGo, hw', Bool.false_eq_true, if_false]
      have h2 := ih.2 false
      cases hg : collapseGo cs false with
      | nil => rfl
      | cons d ds =>
        rw [hg] at h2
        simp only [noTwoWS, Bool.and_eq_true]
        exact ⟨by simp [hw'], h2⟩

theorem wsOnlySpace_collapseGo : ∀ (l : Str) (b : Bool), wsOnlySpace (collapseGo l b) = true := by
  intro l
  induction l with
  | nil => intro b; rfl
  | cons c cs ih =>
    intro b
    by_cases hw : isWS c = true
    · cases b with
      | true => simpa only [collapseGo, hw, if_true] using ih true
      | false =>
        simp only [collapseGo, hw, if_true, Bool.false_eq_true, if_false, wsOnlySpace,
          List.all_cons, Bool.and_eq_true]
        exact ⟨by decide, ih true⟩
    · have hw' : isWS c = false := by simpa using hw
      simp only [collapseGo, hw', Bool.false_eq_true, if_false, wsOnlySpace, List.all_cons,
        Bool.and_eq_true]
      exact ⟨by simp [hw'], ih false⟩

theorem newline_not_mem_collapseGo : ∀ (l : Str) (b : Bool), '\n' ∉ collapseGo l b := by
  intro l
  induction l with
  | nil => intro b h; simp [collapseGo] at h
  | cons c cs ih =>
    intro b h
    by_cases hw : isWS c = true
    · cases b with
      | true =>
        rw [collapseGo, if_pos hw] at h
        exact ih true h
      | false =>
        simp only [collapseGo, hw, if_true, Bool.false_eq_true, if_false] at h
        rcases List.mem_cons.mp h with h1 | h1
        · exact absurd h1.symm (by decide)
        · exact ih true h1
    · have hw' : isWS c = false := by simpa using hw
      simp only [collapseGo, hw', Bool.false_eq_true, if_false] at h
      rcases List.mem_cons.mp h with h1 | h1
      · subst h1
        simp [isWS] at hw'
      · exact ih false h1

theorem hasRef_collapseGo_matchesAt : ∀ {pat : Str}, pat.all (fun c => !isWS c) = true →
    ∀ {l : Str}, matchesAt pat (collapseGo l false) = true → matchesAt pat l = true := by
  intro pat
  induction pat with
  | nil => intro _ l _; rfl
  | cons p ps ih =>
    intro hp l h
    simp only [List.all_cons, Bool.and_eq_true] at hp
    cases l with
    | nil => simp [collapseGo, matchesAt] at h
    | cons c cs =>
      by_cases hw : isWS c = true
      · simp only [collapseGo, hw, if_true, Bool.false_eq_true, if_false] at h
        simp only [matchesAt, Bool.and_eq_true] at h
        have hsp : p = ' ' := by
          have := h.1
          simpa using (beq_iff_eq.mp this).symm
        rw [hsp] at hp
        simp [isWS] at hp
      · have hw' : isWS c = false := by simpa using hw
        simp only [collapseGo, hw', Bool.false_eq_true, if_false] at h
        simp only [matchesAt, Bool.and_eq_true] at h ⊢
        exact ⟨h.1, ih hp.2 h.2⟩

theorem hasRef_collapseGo : ∀ (l : Str) (b : Bool),
    hasRef (collapseGo l b) = true → hasRef l = true := by
  intro l
  induction l with
  | nil => intro b h; simpa [collapseGo] using h
  | cons c cs ih =>
    intro b h
    by_cases hw : isWS c = true
    · cases b with
      | true =>
        rw [collapseGo, if_pos hw] at h
        rw [hasRef_cons, ih true h, Bool.or_true]
      | false =>
        simp only [collapseGo, hw, if_true, Bool.false_eq_true, if_false] at h
        rw [hasRef_cons] at h
        rcases Bool.or_eq_true_iff.mp h with h1 | h1
        · exfalso
          revert h1
          simp [matchesAt, refLit]
        · rw [hasRef_cons, ih true h1, Bool.or_true]
    · have hw' : isWS c = false := by simpa using hw
      simp only [collapseGo, hw', Bool.false_eq_true, if_false] at h
      rw [hasRef_cons] at h
      rcases Bool.or_eq_true_iff.mp h with h1 | h1
      · have h2 : matchesAt refLit (collapseGo (c :: cs) false) = true := by
          simp only [collapseGo, hw', Bool.false_eq_true, if_false]
          exact h1
        have h3 := hasRef_collapseGo_matchesAt (by decide) h2
        rw [hasRef_cons, h3, Bool.true_or]
      · rw [hasRef_cons, ih false h1, Bool.or_true]

theorem rstrip_decomp : ∀ l : Str, ∃ t, l = rstripWS l ++ t := by
  intro l
  induction l with
  | nil => exact ⟨[], rfl⟩
  | cons c cs ih =>
    rw [rstripWS]
    cases hr : rstripWS cs with
    | nil =>
      by_cases hw : isWS c = true
      · exact ⟨c :: cs, by simp [hw]⟩
      · have hw' : isWS c = false := by simpa using hw
        obtain ⟨t, ht⟩ := ih
        rw [hr] at ht
        exact ⟨cs, by simp [hw']⟩
    | cons r rs =>
      obtain ⟨t, ht⟩ := ih
      rw [hr] at ht
      exact ⟨t, by rw [List.cons_append, ← ht]⟩

theorem rstrip_head? : ∀ l : Str, rstripWS l = [] ∨ (rstripWS l).head? = l.head? := by
  intro l
  cases l with
  | nil => exact Or.inl rfl
  | cons c cs =>
    rw [rstripWS]
    cases rstripWS cs with
    | nil =>
      by_cases hw : isWS c = true
      · simp [hw]
      · have hw' : isWS c = false := by simpa using hw
        simp [hw']
    | cons r rs => exact Or.inr rfl

theorem rstrip_idem : ∀ l : Str, rstripWS (rstripWS l) = rstripWS l := by
  intro l
  induction l with
  | nil => rfl
  | cons c cs ih =>
    rw [rstripWS]
    cases hr : rstripWS cs with
    | nil =>
      by_cases hw : isWS c = true
      · simp [hw, rstripWS]
      · have hw' : isWS c = false := by simpa using hw
        simp [hw', rstripWS]
    | cons r rs =>
      rw [hr] at ih
      simp only []
      rw [rstripWS, ih]

theorem mem_rstrip {a : Char} {l : Str} (h : a ∈ rstripWS l) : a ∈ l := by
  obtain ⟨t, ht⟩ := rstrip_decomp l
  rw [ht]
  exact List.mem_append_left t h

theorem hasRef_rstrip {l : Str} (h : hasRef (rstripWS l) = true) : hasRef l = true := by
  obtain ⟨t, ht⟩ := rstrip_decomp l
  rw [ht]
  exact hasRef_append_left t h

theorem noTwoWS_rstrip : ∀ l : Str, noTwoWS l = true → noTwoWS (rstripWS l) = true := by
  intro l
  induction l with
  | nil => intro _; rfl
  | cons c cs ih =>
    intro h
    rw [rstripWS]
    cases hr : rstripWS cs with
    | nil =>
      by_cases hw : isWS c = true
      · simp [hw, noTwoWS]
      · have hw' : isWS c = false := by simpa using hw
        simp [hw', noTwoWS]
    | cons r rs =>
      have h2 := ih (noTwoWS_tail h)
      rw [hr] at h2
      simp only [noTwoWS, Bool.and_eq_true]
      refine ⟨?_, h2⟩
      rcases rstrip_head? cs with h3 | h3
      · rw [h3] at hr; exact absurd hr (by simp)
      · rw [hr] at h3
        cases cs with
        | nil => simp [rstripWS] at hr
        | cons d ds =>
          have hrd : r = d := by simpa using h3
          subst hrd
          simp only [noTwoWS, Bool.and_eq_true] at h
          simp [h.1]

theorem mem_dropWhile {a : Char} {p : Char → Bool} {l : Str} (h : a ∈ l.dropWhile p) :
    a ∈ l := (List.dropWhile_sublist p).mem h

theorem hasRef_dropWhile {p : Char → Bool} {l : Str} (h : hasRef (l.dropWhile p) = true) :
    hasRef l = true := by
  have := hasRef_append_right (l.takeWhile p) h
  rwa [List.takeWhile_append_dropWhile] at this

theorem noTwoWS_dropWhile {p : Char → Bool} {l : Str} (h : noTwoWS l = true) :
    noTwoWS (l.dropWhile p) = true := by
  refine noTwoWS_append_right (a := l.takeWhile p) ?_
  rwa [List.takeWhile_append_dropWhile]

theorem notWSHead_dropWhile : ∀ l : Str, notWSHead (l.dropWhile isWS) = true := by
  intro l
  induction l with
  | nil => rfl
  | cons c cs ih =>
    rw [List.dropWhile_cons]
    by_cases hw : isWS c = true
    · simpa [hw] using ih
    · have hw' : isWS c = false := by simpa using hw
      simp [hw', notWSHead]

theorem wsOnlySpace_of_subset {l m : Str} (hm : wsOnlySpace m = true)
    (hsub : ∀ a, a ∈ l → a ∈ m) : wsOnlySpace l = true := by
  rw [wsOnlySpace, List.all_eq_true]
  intro x hx
  rw [wsOnlySpace, List.all_eq_true] at hm
  exact hm x (hsub x hx)

/-- Structural facts about `stripWS (collapseWS l)` — the final shape of every
`preprocess_text` output. -/
theorem stripCollapse_facts (l : Str) :
    noTwoWS (stripWS (collapseWS l)) = true ∧
    wsOnlySpace (stripWS (collapseWS l)) = true ∧
    '\n' ∉ stripWS (collapseWS l) ∧
    (stripWS (collapseWS l)).dropWhile isWS = stripWS (collapseWS l) ∧
    rstripWS (stripWS (collapseWS l)) = stripWS (collapseWS l) := by
  refine ⟨?_, ?_, ?_, ?_, ?_⟩
  · exact noTwoWS_rstrip _ (noTwoWS_dropWhile ((collapse_headTwo l).2 false))
  · refine wsOnlySpace_of_subset (wsOnlySpace_collapseGo l false) ?_
    intro a ha
    exact mem_dropWhile (mem_rstrip ha)
  · intro h
    exact newline_not_mem_collapseGo l false (mem_dropWhile (mem_rstrip h))
  · rcases rstrip_head? ((collapseWS l).dropWhile isWS) with h | h
    · rw [stripWS, h]; rfl
    · rw [stripWS]
      cases hc : rstripWS ((collapseWS l).dropWhile isWS) with
      | nil => rfl
      | cons r rs =>
        rw [hc] at h
        have h2 := notWSHead_dropWhile (collapseWS l)
        cases hd : (collapseWS l).dropWhile isWS with
        | nil => rw [hd] at hc; simp [rstripWS] at hc
        | cons d ds =>
          rw [hd] at h h2
          have hrd : r = d := by simpa using h
          subst hrd
          have : isWS r = false := by simpa [notWSHead] using h2
          simp [List.dropWhile_cons, this]
  · exact rstrip_idem _

theorem collapseGo_fix : ∀ l : Str, wsOnlySpace l = true → noTwoWS l = true →
    collapseGo l false = l := by
  intro l
  induction l with
  | nil => intro _ _; rfl
  | cons c cs ih =>
    intro hws hTwo
    have hwsTail : wsOnlySpace cs = true := by
      rw [wsOnlySpace, List.all_cons, Bool.and_eq_true] at hws
      exact hws.2
    by_cases hw : isWS c = true
    · have hc : c = ' ' := by
        rw [wsOnlySpace, List.all_cons, Bool.and_eq_true] at hws
        have h1 := hws.1
        rw [hw] at h1
        simpa using h1
      simp only [collapseGo, hw, if_true, Bool.false_eq_true, if_false]
      rw [hc]
      have hct : collapseGo cs true = cs := by
        cases cs with
        | nil => rfl
        | cons d ds =>
          have hd : isWS d = false := by
            simp only [noTwoWS, Bool.and_eq_true] at hTwo
            have h1 := hTwo.1
            rw [hw] at h1
            simpa using h1
          rw [collapseGo_true_eq_false (by simp [notWSHead, hd])]
          exact ih hwsTail (noTwoWS_tail hTwo)
      rw [hct]
    · have hw' : isWS c = false := by simpa using hw
      simp only [collapseGo, hw', Bool.false_eq_true, if_false]
      rw [ih hwsTail (noTwoWS_tail hTwo)]

theorem findRef_none_of_not_hasRef {l : Str} (h : hasRef l = false) : findRef l = none := by
  rw [hasRef] at h
  cases hf : findRef l with
  | none => rfl
  | some p => rw [hf] at h; simp at h

theorem hasRef_truncateRef (l : Str) : hasRef (truncateRef l) = false := by
  unfold truncateRef
  cases h : findRef l with
  | some p => exact hasRef_take_of_findRef h
  | none => simp [hasRef, h]

/-- No `preprocess_text` output contains a case-insensitive occurrence of
`References`: the truncation removes everything from the first occurrence on,
and the final whitespace collapse and strip cannot create a new one. -/
theorem hasRef_preprocess (x : Str) : hasRef (preprocess_text x) = false := by
  show hasRef (stripWS (collapseWS (truncateRef (midText x)))) = false
  cases hb : hasRef (stripWS (collapseWS (truncateRef (midText x)))) with
  | false => rfl
  | true =>
    exfalso
    rw [stripWS] at hb
    have h1 := hasRef_rstrip hb
    have h2 := hasRef_dropWhile h1
    have h3 := hasRef_collapseGo _ false h2
    rw [hasRef_truncateRef] at h3
    exact Bool.false_ne_true h3

theorem hfTail_none_of_no_newline {r : Str} (h : '\n' ∉ r) : hfTail r = none := by
  have h1 : (r.dropWhile isWS).findIdx? (fun c => c == '\n') = none := by
    rw [List.findIdx?_eq_none_iff]
    intro x hx
    have hxr : x ∈ r := mem_dropWhile hx
    have : ¬x = '\n' := fun he => h (he ▸ hxr)
    simpa using this
  have h2 : (r.takeWhile isWS).contains '\n' = false := by
    cases hc : (r.takeWhile isWS).contains '\n'
    · rfl
    · exfalso
      have hmem : '\n' ∈ r.takeWhile isWS := by
        rw [List.contains_eq_any_beq] at hc
        simp only [List.any_eq_true, beq_iff_eq] at hc
        obtain ⟨x, hx, he⟩ := hc
        exact he ▸ hx
      exact h ((List.takeWhile_sublist isWS).subset hmem)
  show (match (r.dropWhile isWS).findIdx? (fun c => c == '\n') with
    | some i => some ((r.dropWhile isWS).drop (i + 1))
    | none =>
      if (r.takeWhile isWS).contains '\n' = true then
        some (((r.takeWhile isWS).reverse.takeWhile (fun c => !(c == '\n'))).reverse ++
          r.dropWhile isWS)
      else none) = none
  rw [h1, h2]
  simp

theorem subHF_id_of_no_newline : ∀ (fuel : Nat) (l : Str), '\n' ∉ l → subHF fuel l = l := by
  intro fuel
  induction fuel with
  | zero => intro l _; rfl
  | succ f ih =>
    intro l hl
    cases l with
    | nil => rfl
    | cons c cs =>
      have hcs : '\n' ∉ cs := fun hm => hl (List.mem_cons_of_mem c hm)
      rw [subHF]
      by_cases hm : (matchesAt "header:".toList (c :: cs) ||
          matchesAt "footer:".toList (c :: cs)) = true
      · rw [if_pos hm]
        have hdrop : '\n' ∉ (c :: cs).drop 7 :=
          fun hx => hl ((List.drop_sublist 7 (c :: cs)).subset hx)
        rw [hfTail_none_of_no_newline hdrop, ih cs hcs]
      · rw [if_neg hm, ih cs hcs]

theorem subNL_id_of_no_newline : ∀ (fuel : Nat) (l : Str), '\n' ∉ l → subNL fuel l = l := by
  intro fuel
  induction fuel with
  | zero => intro l _; rfl
  | succ f ih =>
    intro l hl
    cases l with
    | nil => rfl
    | cons c cs =>
      have hcs : '\n' ∉ cs := fun hm => hl (List.mem_cons_of_mem c hm)
      rw [subNL]
      by_cases hw : isWS c = true
      · rw [if_pos hw]
        have hrun : (c :: cs.takeWhile isWS).contains '\n' = false := by
          cases hc : (c :: cs.takeWhile isWS).contains '\n'
          · rfl
          · exfalso
            have hmem : '\n' ∈ c :: cs.takeWhile isWS := by
              rw [List.contains_eq_any_beq] at hc
              simp only [List.any_eq_true, beq_iff_eq] at hc
              obtain ⟨x, hx, he⟩ := hc
              exact he ▸ hx
            rcases List.mem_cons.mp hmem with h1 | h1
            · exact hl (h1 ▸ List.mem_cons_self c cs)
            · exact hcs ((List.takeWhile_sublist isWS).subset h1)
        have hrest : '\n' ∉ cs.dropWhile isWS := fun hx => hcs (mem_dropWhile hx)
        simp only [hrun, Bool.false_eq_true, if_false]
        rw [ih _ hrest, List.cons_append, List.takeWhile_append_dropWhile]
      · rw [if_neg hw, ih cs hcs]

/-! ### Claims about `preprocess_text` (C6, C7, C8) -/

/-- Claim C8: for every input text, the output of `preprocess_text` contains no
two consecutive whitespace characters (in particular no two consecutive
spaces), no newline character, and no leading or trailing whitespace (it is a
fixed point of both leading- and trailing-whitespace removal). -/
theorem claim_C8 (x : Str) :
    noTwoWS (preprocess_text x) = true ∧
    '\n' ∉ preprocess_text x ∧
    (preprocess_text x).dropWhile isWS = preprocess_text x ∧
    rstripWS (preprocess_text x) = preprocess_text x := by
  have h := stripCollapse_facts (truncateRef (midText x))
  exact ⟨h.1, h.2.2.1, h.2.2.2.1, h.2.2.2.2⟩

/-- The input refuting C6 as stated: the `Header:` line removal (rule 2) runs
before the `References` search and deletes the line containing the only
occurrence of `References`, so nothing is truncated. -/
def cexC6 : Str := "Header: References\nkeep".toList

/-- Claim C6, counterexample: `cexC6` contains `References` (case-insensitively)
first at position 8, yet `preprocess_text` returns exactly the input content
at positions 19..22 — content strictly after that occurrence — contradicting
the claim that the output never contains content at or after the occurrence. -/
theorem claim_C6_counterexample :
    findRef cexC6 = some 8 ∧
    cexC6.drop 19 = "keep".toList ∧
    preprocess_text cexC6 = cexC6.drop 19 := by
  refine ⟨by decide, by decide, by decide⟩

/-- Claim C6, amended: the `References` truncation applies to the intermediate
text produced by rules 1–3 (page-number removal, header/footer-line removal,
newline-run collapsing), not to the raw input.  If that intermediate text has
a first case-insensitive occurrence of `References` at position `p`,
everything from `p` on is discarded (only whitespace normalization is applied
to the prefix) and the output contains no case-insensitive occurrence of
`References` at all; if the intermediate text has no occurrence it is kept in
full up to whitespace normalization; empty input yields empty output. -/
theorem claim_C6_amended (x : Str) :
    (∀ p, findRef (midText x) = some p →
      preprocess_text x = stripWS (collapseWS ((midText x).take p)) ∧
      hasRef (preprocess_text x) = false) ∧
    (findRef (midText x) = none →
      preprocess_text x = stripWS (collapseWS (midText x))) ∧
    preprocess_text [] = [] := by
  refine ⟨?_, ?_, rfl⟩
  · intro p hp
    refine ⟨?_, hasRef_preprocess x⟩
    have ht : truncateRef (midText x) = (midText x).take p := by
      unfold truncateRef
      rw [hp]
    show stripWS (collapseWS (truncateRef (midText x))) =
      stripWS (collapseWS ((midText x).take p))
    rw [ht]
  · intro hn
    have ht : truncateRef (midText x) = midText x := by
      unfold truncateRef
      rw [hn]
    show stripWS (collapseWS (truncateRef (midText x))) = stripWS (collapseWS (midText x))
    rw [ht]

/-- A concrete input whose intermediate text has a `References` occurrence. -/
def cexRefs : Str := "abc References xyz".toList

theorem claim_C6_amended_witness :
    preprocess_text cexRefs = stripWS (collapseWS ((midText cexRefs).take 4)) ∧
    hasRef (preprocess_text cexRefs) = false :=
  (claim_C6_amended cexRefs).1 4 (by decide)

/-- The input refuting C7 as stated: removing the page-numbering artifact
`Page 1 of 2` splices the surrounding characters into a fresh `Page 3 of 4`
artifact, which only the second pass removes. -/
def cexC7 : Str := "PPage 1 of 2age 3 of 4".toList

/-- Claim C7, counterexample: `preprocess_text` is not idempotent — on `cexC7`
the first pass returns `Page 3 of 4` and the second pass returns the empty
string. -/
theorem claim_C7_counterexample :
    preprocess_text cexC7 = "Page 3 of 4".toList ∧
    preprocess_text (preprocess_text cexC7) = [] ∧
    preprocess_text (preprocess_text cexC7) ≠ preprocess_text cexC7 := by
  refine ⟨by decide, by decide, by decide⟩

/-- Claim C7, amended: `preprocess_text` is idempotent on every input whose
cleaned text contains no page-numbering artifact, i.e. whenever rule 1 leaves
the first pass's output unchanged (the counterexample shows rule 1 is the only
rule that can act on a first pass's output): all other rules fix the cleaned
text, which has no newline, no `References` occurrence, only single interior
spaces, and no leading or trailing whitespace. -/
theorem claim_C7_amended (x : Str)
    (h : removePageNums (preprocess_text x) = preprocess_text x) :
    preprocess_text (preprocess_text x) = preprocess_text x := by
  have hfacts := stripCollapse_facts (truncateRef (midText x))
  have hTwo : noTwoWS (preprocess_text x) = true := hfacts.1
  have hSp : wsOnlySpace (preprocess_text x) = true := hfacts.2.1
  have hNl : '\n' ∉ preprocess_text x := hfacts.2.2.1
  have hDrop : (preprocess_text x).dropWhile isWS = preprocess_text x := hfacts.2.2.2.1
  have hR : rstripWS (preprocess_text x) = preprocess_text x := hfacts.2.2.2.2
  show stripWS (collapseWS (truncateRef (collapseNewlineRuns (removeHeaderFooterLines
    (removePageNums (preprocess_text x)))))) = preprocess_text x
  rw [h]
  rw [show removeHeaderFooterLines (preprocess_text x) = preprocess_text x from
    subHF_id_of_no_newline _ _ hNl]
  rw [show collapseNewlineRuns (preprocess_text x) = preprocess_text x from
    subNL_id_of_no_newline _ _ hNl]
  rw [show truncateRef (preprocess_text x) = preprocess_text x from by
    unfold truncateRef
    rw [findRef_none_of_not_hasRef (hasRef_preprocess x)]]
  rw [show collapseWS (preprocess_text x) = preprocess_text x from
    collapseGo_fix _ hSp hTwo]
  rw [stripWS, hDrop, hR]

/-- A concrete input whose cleaned text has no page-numbering artifact. -/
def wCleanInput : Str := "hello world".toList

theorem claim_C7_amended_witness :
    preprocess_text (preprocess_text wCleanInput) = preprocess_text wCleanInput :=
  claim_C7_amended wCleanInput (by decide)

/-! ### Helper lemmas about the collectors -/

theorem runBatchC_log_mem {jobs : List Job} {j : Job} (hj : j ∈ jobs) :
    (ExClaude.processJob j).2 ∈ (ExClaude.runBatch jobs).2 :=
  List.mem_append_left _ (List.mem_map_of_mem _ hj)

theorem runBatchG_log_mem {jobs : List Job} {j : Job} (hj : j ∈ jobs) :
    (ExGemini.processJob j).2 ∈ (ExGemini.runBatch jobs).2 :=
  List.mem_append_left _ (List.mem_map_of_mem _ hj)

theorem runBatchC_art_mem {jobs : List Job} {j : Job} (hj : j ∈ jobs)
    {a : Str × Str} (ha : (ExClaude.processJob j).1 = some a) :
    a ∈ (ExClaude.runBatch jobs).1 :=
  List.mem_filterMap.mpr ⟨j, hj, ha⟩

theorem runBatchG_art_mem {jobs : List Job} {j : Job} (hj : j ∈ jobs)
    {a : Str × Str} (ha : (ExGemini.processJob j).1 = some a) :
    a ∈ (ExGemini.runBatch jobs).1 :=
  List.mem_filterMap.mpr ⟨j, hj, ha⟩

theorem runBatchC_last (jobs : List Job) :
    ((ExClaude.runBatch jobs).2).getLast? = some LogLine.summary :=
  List.getLast?_concat _

theorem runBatchG_last (jobs : List Job) :
    ((ExGemini.runBatch jobs).2).getLast? = some LogLine.summary :=
  List.getLast?_concat _

theorem runBatchC_le (jobs : List Job) :
    (ExClaude.runBatch jobs).1.length ≤ jobs.length :=
  List.length_filterMap_le _ _

theorem runBatchG_le (jobs : List Job) :
    (ExGemini.runBatch jobs).1.length ≤ jobs.length :=
  List.length_filterMap_le _ _

theorem runBatchC_count (jobs : List Job) :
    (((ExClaude.runBatch jobs).2).filter isOutcomeLine).length = jobs.length := by
  show ((jobs.map (fun j => (ExClaude.processJob j).2) ++ [LogLine.summary]).filter
    isOutcomeLine).length = jobs.length
  rw [List.filter_append]
  have h1 : (jobs.map (fun j => (ExClaude.processJob j).2)).filter isOutcomeLine =
      jobs.map (fun j => (ExClaude.processJob j).2) := by
    rw [List.filter_eq_self]
    intro a ha
    obtain ⟨j, hj, rfl⟩ := List.mem_map.mp ha
    cases hr : j.result <;> simp [ExClaude.processJob, hr, isOutcomeLine]
  rw [h1]
  simp [isOutcomeLine]

theorem runBatchG_count (jobs : List Job) :
    (((ExGemini.runBatch jobs).2).filter isOutcomeLine).length = jobs.length := by
  show ((jobs.map (fun j => (ExGemini.processJob j).2) ++ [LogLine.summary]).filter
    isOutcomeLine).length = jobs.length
  rw [List.filter_append]
  have h1 : (jobs.map (fun j => (ExGemini.processJob j).2)).filter isOutcomeLine =
      jobs.map (fun j => (ExGemini.processJob j).2) := by
    rw [List.filter_eq_self]
    intro a ha
    obtain ⟨j, hj, rfl⟩ := List.mem_map.mp ha
    cases hr : j.result with
    | error e => simp [ExGemini.processJob, hr, isOutcomeLine]
    | ok tsv =>
      by_cases hpre : litAt ExGemini.geminiErrTag tsv = true
      · simp [ExGemini.processJob, hr, hpre, isOutcomeLine]
      · simp [ExGemini.processJob, hr, hpre, isOutcomeLine]
  rw [h1]
  simp [isOutcomeLine]

/-! ### Claims about the batch orchestrator (C1, C2, C9, C10) -/

/-- Claim C1: in both scripts, an exception raised inside a job's pipeline
(modelled by `extract_from_pdf` returning `Except.error`) is caught at the
job boundary by the collector and becomes a failure log line; every other
job is unaffected — a job whose pipeline returns normally still yields its
artifact and success line (in the Gemini variant, provided its result does
not carry the in-band error tag; a tagged result yields a failure line) —
and the single summary line is the last line of the log, after all
per-job outcome lines. -/
theorem claim_C1 (names : List Str)
    (pagesC pagesG : Str → List (Except Str Str))
    (apiC apiG : Str → Str → Except Str Str)
    (f : Str) (hf : f ∈ discoverPdfs names) :
    (∀ e, ExClaude.extract_from_pdf (pagesC f) (apiC f) = Except.error e →
      LogLine.failure f e ∈ (ExClaude.batch names pagesC apiC).2) ∧
    (∀ t, ExClaude.extract_from_pdf (pagesC f) (apiC f) = Except.ok t →
      (outNameOf f, artifactContent t) ∈ (ExClaude.batch names pagesC apiC).1 ∧
      LogLine.success f (outNameOf f) ∈ (ExClaude.batch names pagesC apiC).2) ∧
    ((ExClaude.batch names pagesC apiC).2).getLast? = some LogLine.summary ∧
    (∀ e, ExGemini.extract_from_pdf (pagesG f) (apiG f) = Except.error e →
      LogLine.failure f e ∈ (ExGemini.batch names pagesG apiG).2) ∧
    (∀ t, ExGemini.extract_from_pdf (pagesG f) (apiG f) = Except.ok t →
      (litAt ExGemini.geminiErrTag t = true →
        LogLine.failure f t ∈ (ExGemini.batch names pagesG apiG).2) ∧
      (litAt ExGemini.geminiErrTag t = false →
        (outNameOf f, artifactContent t) ∈ (ExGemini.batch names pagesG apiG).1 ∧
        LogLine.success f (outNameOf f) ∈ (ExGemini.batch names pagesG apiG).2)) ∧
    ((ExGemini.batch names pagesG apiG).2).getLast? = some LogLine.summary := by
  have hjC : Job.mk f (ExClaude.extract_from_pdf (pagesC f) (apiC f)) ∈
      (discoverPdfs names).map
        (fun g => Job.mk g (ExClaude.extract_from_pdf (pagesC g) (apiC g))) :=
    List.mem_map_of_mem _ hf
  have hjG : Job.mk f (ExGemini.extract_from_pdf (pagesG f) (apiG f)) ∈
      (discoverPdfs names).map
        (fun g => Job.mk g (ExGemini.extract_from_pdf (pagesG g) (apiG g))) :=
    List.mem_map_of_mem _ hf
  refine ⟨?_, ?_, runBatchC_last _, ?_, ?_, runBatchG_last _⟩
  · intro e he
    have h2 : (ExClaude.processJob (Job.mk f (ExClaude.extract_from_pdf (pagesC f) (apiC f)))).2 =
        LogLine.failure f e := by
      simp [ExClaude.processJob, he]
    have h3 := runBatchC_log_mem hjC
    rw [h2] at h3
    exact h3
  · intro t ht
    have h1 : (ExClaude.processJob (Job.mk f (ExClaude.extract_from_pdf (pagesC f) (apiC f)))).1 =
        some (outNameOf f, artifactContent t) := by
      simp [ExClaude.processJob, ht]
    have h2 : (ExClaude.processJob (Job.mk f (ExClaude.extract_from_pdf (pagesC f) (apiC f)))).2 =
        LogLine.success f (outNameOf f) := by
      simp [ExClaude.processJob, ht]
    refine ⟨runBatchC_art_mem hjC h1, ?_⟩
    have h3 := runBatchC_log_mem hjC
    rw [h2] at h3
    exact h3
  · intro e he
    have h2 : (ExGemini.processJob (Job.mk f (ExGemini.extract_from_pdf (pagesG f) (apiG f)))).2 =
        LogLine.failure f e := by
      simp [ExGemini.processJob, he]
    have h3 := runBatchG_log_mem hjG
    rw [h2] at h3
    exact h3
  · intro t ht
    constructor
    · intro hpre
      have h2 : (ExGemini.processJob (Job.mk f (ExGemini.extract_from_pdf (pagesG f) (apiG f)))).2 =
          LogLine.failure f t := by
        simp [ExGemini.processJob, ht, hpre]
      have h3 := runBatchG_log_mem hjG
      rw [h2] at h3
      exact h3
    · intro hpre
      have h1 : (ExGemini.processJob (Job.mk f (ExGemini.extract_from_pdf (pagesG f) (apiG f)))).1 =
          some (outNameOf f, artifactContent t) := by
        simp [ExGemini.processJob, ht, hpre]
      have h2 : (ExGemini.processJob (Job.mk f (ExGemini.extract_from_pdf (pagesG f) (apiG f)))).2 =
          LogLine.success f (outNameOf f) := by
        simp [ExGemini.processJob, ht, hpre]
      refine ⟨runBatchG_art_mem hjG h1, ?_⟩
      have h3 := runBatchG_log_mem hjG
      rw [h2] at h3
      exact h3

/-- Directory listing used by the concrete batch witnesses: two PDFs (one of
which will fail during page extraction) and one non-PDF entry. -/
def wNames : List Str := ["good.pdf".toList, "bad.pdf".toList, "notes.txt".toList]

/-- Page oracle for the witnesses: `bad.pdf` raises during `get_text`. -/
def wPages : Str → List (Except Str Str) := fun f =>
  if f = "bad.pdf".toList then [Except.error "boom".toList]
  else [Except.ok "Some text".toList]

/-- Provider oracle for the witnesses: always returns one TSV row. -/
def wApi : Str → Str → Except Str Str := fun _ _ => Except.ok "r1\tr2".toList

theorem claim_C1_witness :
    LogLine.failure "bad.pdf".toList "boom".toList ∈ (ExClaude.batch wNames wPages wApi).2 ∧
    (outNameOf "good.pdf".toList, artifactContent "r1\tr2".toList) ∈
      (ExClaude.batch wNames wPages wApi).1 ∧
    LogLine.failure "bad.pdf".toList "boom".toList ∈ (ExGemini.batch wNames wPages wApi).2 ∧
    (outNameOf "good.pdf".toList, artifactContent "r1\tr2".toList) ∈
      (ExGemini.batch wNames wPages wApi).1 := by
  have hbad := claim_C1 wNames wPages wPages wApi wApi "bad.pdf".toList (by decide)
  have hgood := claim_C1 wNames wPages wPages wApi wApi "good.pdf".toList (by decide)
  refine ⟨hbad.1 _ (by decide), (hgood.2.1 _ (by decide)).1,
    hbad.2.2.2.1 _ (by decide), ((hgood.2.2.2.2.1 _ (by decide)).2 (by decide)).1⟩

/-- Claim C2: in both scripts, the collector writes nothing for a job whose
outcome is a failure (the writer step is reached only on the success path),
and a batch over a directory with N discovered PDFs produces at most N
artifacts and exactly N per-job outcome log lines. -/
theorem claim_C2 (names : List Str)
    (pagesC pagesG : Str → List (Except Str Str))
    (apiC apiG : Str → Str → Except Str Str) :
    (ExClaude.batch names pagesC apiC).1.length ≤ (discoverPdfs names).length ∧
    (((ExClaude.batch names pagesC apiC).2).filter isOutcomeLine).length =
      (discoverPdfs names).length ∧
    (∀ f e, (ExClaude.processJob (Job.mk f (Except.error e))).1 = none) ∧
    (ExGemini.batch names pagesG apiG).1.length ≤ (discoverPdfs names).length ∧
    (((ExGemini.batch names pagesG apiG).2).filter isOutcomeLine).length =
      (discoverPdfs names).length ∧
    (∀ f e, (ExGemini.processJob (Job.mk f (Except.error e))).1 = none) ∧
    (∀ f t, litAt ExGemini.geminiErrTag t = true →
      (ExGemini.processJob (Job.mk f (Except.ok t))).1 = none) := by
  refine ⟨?_, ?_, fun f e => rfl, ?_, ?_, fun f e => rfl, ?_⟩
  · have h := runBatchC_le ((discoverPdfs names).map
      (fun g => Job.mk g (ExClaude.extract_from_pdf (pagesC g) (apiC g))))
    rw [List.length_map] at h
    exact h
  · have h := runBatchC_count ((discoverPdfs names).map
      (fun g => Job.mk g (ExClaude.extract_from_pdf (pagesC g) (apiC g))))
    rw [List.length_map] at h
    exact h
  · have h := runBatchG_le ((discoverPdfs names).map
      (fun g => Job.mk g (ExGemini.extract_from_pdf (pagesG g) (apiG g))))
    rw [List.length_map] at h
    exact h
  · have h := runBatchG_count ((discoverPdfs names).map
      (fun g => Job.mk g (ExGemini.extract_from_pdf (pagesG g) (apiG g))))
    rw [List.length_map] at h
    exact h
  · intro f t ht
    simp [ExGemini.processJob, ht]

theorem claim_C2_witness :
    (ExClaude.processJob (Job.mk "a.pdf".toList (Except.error "boom".toList))).1 = none ∧
    (ExGemini.processJob (Job.mk "a.pdf".toList
      (Except.ok "ERROR_CALLING_GEMINI_API: quota".toList))).1 = none ∧
    (((ExClaude.batch wNames wPages wApi).2).filter isOutcomeLine).length = 2 := by
  have h := claim_C2 wNames wPages wPages wApi wApi
  refine ⟨h.2.2.1 _ _, h.2.2.2.2.2.2 _ _ (by decide), ?_⟩
  have h2 := h.2.1
  have hn : (discoverPdfs wNames).length = 2 := by decide
  rw [hn] at h2
  exact h2

theorem takeWhile_append_of_all {p : Char → Bool} :
    ∀ {a : Str} (b : Str), (∀ c ∈ a, p c = true) →
      (a ++ b).takeWhile p = a ++ b.takeWhile p := by
  intro a
  induction a with
  | nil => intro b _; rfl
  | cons x xs ih =>
    intro b h
    have hx : p x = true := h x (List.mem_cons_self x xs)
    rw [List.cons_append, List.takeWhile_cons, hx]
    simp only [if_true]
    rw [ih b (fun c hc => h c (List.mem_cons_of_mem x hc))]
    rfl

/-- Claim C9: the first line of every artifact written for a successful job
is exactly the fixed 6-column tab-separated header, byte for byte, regardless
of the model output, and the rest of the file is the model-returned body
appended verbatim (followed by the final newline the writer adds). -/
theorem claim_C9 (tsv : Str) :
    (artifactContent tsv).takeWhile (fun c => !(c == '\n')) = headerRow ∧
    headerRow = ("Ligand name\tReceptor protein name\tReceptor protein organism source\tAffinity value\tWet lab method for affinity measurement\tCorresponding complex PDBID").toList ∧
    (artifactContent tsv).drop (headerRow.length + 1) = tsv ++ ['\n'] := by
  refine ⟨?_, by decide, ?_⟩
  · show (headerRow ++ '\n' :: (tsv ++ ['\n'])).takeWhile (fun c => !(c == '\n')) = headerRow
    have hall : ∀ c ∈ headerRow, (!(c == '\n')) = true :=
      List.all_eq_true.mp (by decide)
    rw [takeWhile_append_of_all _ hall]
    simp [List.takeWhile_cons]
  · show (headerRow ++ '\n' :: (tsv ++ ['\n'])).drop (headerRow.length + 1) = tsv ++ ['\n']
    have hsplit : headerRow ++ '\n' :: (tsv ++ ['\n']) =
        (headerRow ++ ['\n']) ++ (tsv ++ ['\n']) := by
      simp
    have hlen : headerRow.length + 1 = (headerRow ++ ['\n']).length := by
      simp
    rw [hsplit, hlen, List.drop_left]

/-- Claim C10: in `ex-gemini.py` failure is encoded in-band — the collector
classifies any job result that starts with `ERROR_CALLING_GEMINI_API` as a
failure, logging it and writing no artifact, even when the result is a
response the model legitimately returned (see the witness, where the model's
own answer begins with the marker). -/
theorem claim_C10 (jobs : List Job) (j : Job) (hj : j ∈ jobs) (tsv : Str)
    (hr : j.result = Except.ok tsv) (hpre : litAt ExGemini.geminiErrTag tsv = true) :
    (ExGemini.processJob j).1 = none ∧
    (ExGemini.processJob j).2 = LogLine.failure j.fname tsv ∧
    LogLine.failure j.fname tsv ∈ (ExGemini.runBatch jobs).2 := by
  have h1 : ExGemini.processJob j = (none, LogLine.failure j.fname tsv) := by
    simp [ExGemini.processJob, hr, hpre]
  refine ⟨by rw [h1], by rw [h1], ?_⟩
  have h3 := runBatchG_log_mem hj
  rw [h1] at h3
  exact h3

/-- A legitimate model response that happens to begin with the in-band error
marker of `ex-gemini.py`. -/
def cLegit : Str := "ERROR_CALLING_GEMINI_API is the marker this paper analyses".toList

theorem claim_C10_witness :
    (ExGemini.processJob (Job.mk "paper.pdf".toList
      (Except.ok (ExGemini.call_gemini_api (Except.ok cLegit))))).1 = none ∧
    (ExGemini.processJob (Job.mk "paper.pdf".toList
      (Except.ok (ExGemini.call_gemini_api (Except.ok cLegit))))).2 =
      LogLine.failure "paper.pdf".toList cLegit := by
  have h := claim_C10
    [Job.mk "paper.pdf".toList (Except.ok (ExGemini.call_gemini_api (Except.ok cLegit)))]
    (Job.mk "paper.pdf".toList (Except.ok (ExGemini.call_gemini_api (Except.ok cLegit))))
    (by decide) cLegit (by decide) (by decide)
  exact ⟨h.1, h.2.1⟩

/-- Whether a Python call returned normally (`Except.ok`) rather than raising. -/
def exOk : Except Str Str → Bool
  | Except.ok _ => true
  | Except.error _ => false

/-- The provider-call outcome refuting C3 for `ex-claude.py`. -/
def cexNetErr : Str := "connection error".toList

/-- Claim C3, counterexample: `call_openai_api` in `ex-claude.py` has no
exception handling at all — a raised provider exception passes through its
boundary to the caller unchanged, instead of being captured as a tagged
outcome. -/
theorem claim_C3_counterexample :
    ExClaude.call_openai_api (Except.error cexNetErr) = Except.error cexNetErr ∧
    exOk (ExClaude.call_openai_api (Except.error cexNetErr)) = false :=
  ⟨rfl, rfl⟩

theorem litAt_append_self : ∀ (pat t : Str), litAt pat (pat ++ t) = true := by
  intro pat
  induction pat with
  | nil => intro t; rfl
  | cons p ps ih =>
    intro t
    simp [litAt, ih]

/-- Claim C3, amended: only the Gemini client satisfies the contract — it
captures every provider exception and always returns a string, tagging
failures with a recognisable in-band marker; the Claude client performs no
handling, so a provider exception propagates through it (and through
`extract_from_pdf`) and is only caught later, at the job boundary in `main`. -/
theorem claim_C3_amended (pages : List (Except Str Str)) (raw : List Str) (e : Str)
    (hr : sequenceE pages = Except.ok raw) :
    ExClaude.extract_from_pdf pages (fun _ => Except.error e) = Except.error e ∧
    ExGemini.extract_from_pdf pages (fun _ => Except.error e) =
      Except.ok (ExGemini.geminiErrTag ++ ": ".toList ++ e) ∧
    litAt ExGemini.geminiErrTag (ExGemini.call_gemini_api (Except.error e)) = true := by
  have hread : (readPages pages).1 = Except.ok raw := by
    rw [readPages, hr]
  refine ⟨?_, ?_, ?_⟩
  · simp only [ExClaude.extract_from_pdf, hread]
    rfl
  · simp only [ExGemini.extract_from_pdf, hread]
    rfl
  · show litAt ExGemini.geminiErrTag (ExGemini.geminiErrTag ++ ": ".toList ++ e) = true
    rw [List.append_assoc]
    exact litAt_append_self _ _

theorem claim_C3_amended_witness :
    ExClaude.extract_from_pdf [Except.ok "body".toList] (fun _ => Except.error "auth".toList) =
      Except.error "auth".toList ∧
    ExGemini.extract_from_pdf [Except.ok "body".toList] (fun _ => Except.error "auth".toList) =
      Except.ok (ExGemini.geminiErrTag ++ ": ".toList ++ "auth".toList) ∧
    litAt ExGemini.geminiErrTag (ExGemini.call_gemini_api
      (Except.error "auth".toList)) = true :=
  claim_C3_amended _ ["body".toList] _ (by decide)

/-- Claim C4, counterexample: `extract_from_pdf` reads pages with a plain
`for` loop and calls `doc.close()` only after it; there is no `try/finally`
or context manager, so when `get_text` raises on the second page the
exception propagates and the document handle is never closed on this path
(second component `false`). -/
theorem claim_C4_counterexample :
    (readPages [Except.ok "page one".toList,
      Except.error "get_text raised".toList]).2 = false ∧
    (readPages [Except.ok "page one".toList,
      Except.error "get_text raised".toList]).1 =
      Except.error "get_text raised".toList := by
  refine ⟨by decide, by decide⟩

/-- Claim C4, amended: the document handle is closed exactly on the runs in
which every page's `get_text` call returns normally; whenever page extraction
raises partway through the iteration, `doc.close()` is skipped. -/
theorem claim_C4_amended (pages : List (Except Str Str)) :
    (readPages pages).2 = pages.all exOk := by
  induction pages with
  | nil => rfl
  | cons x xs ih =>
    cases x with
    | error e => rfl
    | ok a =>
      cases hs : sequenceE xs with
      | error e =>
        have hseq : sequenceE (Except.ok a :: xs) = Except.error e := by
          simp only [sequenceE, hs]
        have ih2 : false = xs.all exOk := by
          rw [readPages, hs] at ih
          exact ih
        rw [readPages, hseq, List.all_cons, ← ih2]
        rfl
      | ok as =>
        have hseq : sequenceE (Except.ok a :: xs) = Except.ok (a :: as) := by
          simp only [sequenceE, hs]
        have ih2 : true = xs.all exOk := by
          rw [readPages, hs] at ih
          exact ih
        rw [readPages, hseq, List.all_cons, ← ih2]
        rfl

/-- Claim C5, counterexample: a directory can contain the two distinct
entries `a.pdf` and `a.PDF`; both are discovered (the extension check is
case-insensitive) and both derive the same artifact filename `a.tsv`, so two
distinct discovered inputs can collide on one output path. -/
theorem claim_C5_counterexample :
    "a.pdf".toList ∈ discoverPdfs ["a.pdf".toList, "a.PDF".toList] ∧
    "a.PDF".toList ∈ discoverPdfs ["a.pdf".toList, "a.PDF".toList] ∧
    ("a.pdf".toList : Str) ≠ "a.PDF".toList ∧
    outNameOf "a.pdf".toList = outNameOf "a.PDF".toList := by
  refine ⟨by decide, by decide, by decide, by decide⟩

/-- Claim C5, amended: the derived artifact filenames of two discovered
inputs are distinct exactly when the inputs' stems are distinct — distinct
filenames alone do not suffice, since two names differing only in the
extension (e.g. in its case) share a stem and therefore an artifact path. -/
theorem claim_C5_amended (f g : Str) :
    outNameOf f = outNameOf g ↔ stemOf f = stemOf g := by
  constructor
  · intro h
    exact List.append_cancel_right h
  · intro h
    rw [outNameOf, outNameOf, h]

theorem claim_C5_amended_witness :
    (outNameOf "a.pdf".toList = outNameOf "b.pdf".toList ↔
      stemOf "a.pdf".toList = stemOf "b.pdf".toList) :=
  claim_C5_amended _ _
